import Mathlib

/-!
Verification of the socket_chat concurrent chat server (dunamismax/golang).

The development shallowly embeds the Go sources:
  * `internal/server/hub.go`    — the `Hub` event loop (`Hub.Run`);
  * `internal/server/client.go` — the `Client` struct, its constants, the
    inbound pump (`Client.readPump`) and its message formatting;
  * `internal/server/server.go` — the handshake in `Server.handleConnection`.

Clients are identified by natural numbers (standing for the `*Client`
pointers Go uses as map keys).  A client's buffered `send` channel is
modelled by the list of messages currently sitting in its buffer, together
with a `closed` flag and a counter of how many times `close` was called on
it.  The Hub's single serialized goroutine is modelled by a step function
on hub states, one step per event received on the `register`, `unregister`
and `broadcast` channels.  Byte strings are modelled as lists of
characters.
-/

set_option maxRecDepth 40000

namespace GoChat

/-- Messages (Go `[]byte` values) are modelled as lists of characters. -/
abbrev Msg := List Char

/-- One second of Go `time.Duration`, in nanoseconds. -/
def second : Nat := 1000000000

/-- client.go: `writeWait = 10 * time.Second`. -/
def writeWait : Nat := 10 * second

/-- client.go: `pongWait = 60 * time.Second`. -/
def pongWait : Nat := 60 * second

/-- client.go: `pingPeriod = (pongWait * 9) / 10`. -/
def pingPeriod : Nat := (pongWait * 9) / 10

/-- client.go: `maxMessageSize = 1024`. -/
def maxMessageSize : Nat := 1024

/-- client.go, `newClient`: `send: make(chan []byte, 256)` — the capacity of
each client's buffered outbound channel. -/
def sendCapacity : Nat := 256

/-- The state of one client's buffered `send` channel together with the
client's nickname (client.go, `Client`): the messages currently buffered,
whether the channel has been closed, and how many times `close` was called
on it (in Go a second `close` would panic, so the counter lets us verify it
never reaches 2). -/
structure ClientState where
  nickname : Msg
  queue : List Msg
  closed : Bool
  closeCount : Nat
deriving Repr, DecidableEq

/-- client.go, `newClient`: a freshly constructed client has an empty
buffered channel of capacity `sendCapacity` and the given nickname. -/
def ClientState.init (nick : Msg) : ClientState :=
  { nickname := nick, queue := [], closed := false, closeCount := 0 }

/-- Go's `close(client.send)`: mark the channel closed. -/
def closeChan (cs : ClientState) : ClientState :=
  { cs with closed := true, closeCount := cs.closeCount + 1 }

/-- The Hub's state (hub.go, `Hub`): the set of registered clients
(`h.clients`, here a duplicate-free list of client ids) and the channel
state of every client id. -/
structure HubState where
  clients : List Nat
  chans : Nat → ClientState

/-- Pointwise update of the client-channel map. -/
def updateChan (f : Nat → ClientState) (c : Nat) (v : ClientState) : Nat → ClientState :=
  fun d => if d = c then v else f d

/-- The three kinds of events the Hub's `select` receives (hub.go,
`Hub.Run`): a registration, an unregistration, or a broadcast message. -/
inductive HubEvent where
  | register (c : Nat)
  | unregister (c : Nat)
  | broadcast (m : Msg)

/-- One iteration of the broadcast fan-out loop body (hub.go, `Hub.Run`,
`case message := <-h.broadcast`): a non-blocking send on `client.send`; if
the buffer has room the message is enqueued, otherwise (`default` branch)
the channel is closed and the client deleted from the set. -/
def sendOrEvict (m : Msg) (s : HubState) (c : Nat) : HubState :=
  let cs := s.chans c
  if cs.queue.length < sendCapacity then
    { s with chans := updateChan s.chans c { cs with queue := cs.queue ++ [m] } }
  else
    { clients := s.clients.erase c,
      chans := updateChan s.chans c (closeChan cs) }

/-- One iteration of the Hub's event loop (hub.go, `Hub.Run`):
  * `register`:   `h.clients[client] = true` (map insertion);
  * `unregister`: if present, delete from the map and close the channel;
  * `broadcast`:  for every registered client, a non-blocking send,
    evicting the client on a full buffer. -/
def hubStep (s : HubState) : HubEvent → HubState
  | .register c =>
      if c ∈ s.clients then s else { s with clients := c :: s.clients }
  | .unregister c =>
      if c ∈ s.clients then
        { clients := s.clients.erase c,
          chans := updateChan s.chans c (closeChan (s.chans c)) }
      else s
  | .broadcast m => s.clients.foldl (sendOrEvict m) s

/-- Run the Hub loop over a whole sequence of received events. -/
def hubRun (s : HubState) (es : List HubEvent) : HubState :=
  es.foldl hubStep s

/-- hub.go, `NewHub`: an empty client set; no channel has been created (all
ids map to a pristine channel state). -/
def hubInit : HubState :=
  { clients := [], chans := fun _ => ClientState.init [] }

/-- `bufio.Reader.ReadBytes('\n')` / `ReadString('\n')` on a finite input
stream: scan for the first newline; on success return the line *including*
the delimiter together with the unread remainder; at end of input with no
delimiter, fail (the Go call returns `err != nil`). -/
def readLineSplit : List Char → Option (Msg × List Char)
  | [] => none
  | c :: rest =>
      if c = '\n' then some ([c], rest)
      else
        match readLineSplit rest with
        | none => none
        | some (l, r) => some (c :: l, r)

/-- client.go, `readPump`: `fmt.Sprintf("[%s]: %s", c.nickname, line)`. -/
def formatMessage (nickname line : Msg) : Msg :=
  ['['] ++ nickname ++ [']', ':', ' '] ++ line

/-- Worker for `readPumpMessages`, accumulating the characters of the line
read so far (the state inside `reader.ReadBytes('\n')`). -/
def readPumpGo (nickname : Msg) (acc : Msg) : List Char → List Msg
  | [] => []
  | c :: rest =>
      if c = '\n' then
        formatMessage nickname (acc ++ [c]) :: readPumpGo nickname [] rest
      else
        readPumpGo nickname (acc ++ [c]) rest

/-- client.go, `readPump`: the sequence of messages the inbound pump sends
to `c.hub.broadcast` while consuming the given input stream — each
successfully read line (newline included) is wrapped with the nickname and
forwarded; the loop ends at the first read error (end of input). -/
def readPumpMessages (nickname : Msg) (input : List Char) : List Msg :=
  readPumpGo nickname [] input

/-- server.go, `handleConnection`: `nickname, err := reader.ReadString('\n')`
followed by `nickname = nickname[:len(nickname)-1]` — on a successful read
the last byte of the line is dropped; on a read error the handler returns
without registering. -/
def handshakeNickname (input : List Char) : Option Msg :=
  match readLineSplit input with
  | none => none
  | some (line, _) => some line.dropLast

/-- server.go, `handleConnection`:
`fmt.Sprintf("%s has joined the chat.\n", nickname)`. -/
def joinMessage (nickname : Msg) : Msg :=
  nickname ++ (" has joined the chat.\n").toList

/-- server.go, `handleConnection`: read the nickname (abandoning the
connection on failure), construct the client (`newClient`, a fresh channel
state for a fresh id), send it on `s.hub.register`, then broadcast the join
message. -/
def handleConnection (s : HubState) (newId : Nat) (input : List Char) : Option HubState :=
  match handshakeNickname input with
  | none => none
  | some nick =>
      let s1 : HubState := { s with chans := updateChan s.chans newId (ClientState.init nick) }
      let s2 := hubStep s1 (.register newId)
      some (hubStep s2 (.broadcast (joinMessage nick)))

/-- The ids carried by the register events of a trace.  A Go `*Client`
pointer is registered at most once ever (each `handleConnection` builds a
fresh client and registers it exactly once), so program traces have
duplicate-free register ids. -/
def registerIds (es : List HubEvent) : List Nat :=
  es.filterMap fun e =>
    match e with
    | .register c => some c
    | _ => none

/-- A client id the Hub has never closed: its channel is open and `close`
was never called on it. -/
def ChanUntouched (s : HubState) (c : Nat) : Prop :=
  (s.chans c).closed = false ∧ (s.chans c).closeCount = 0

/-- The Hub's structural invariant: the registered set has no duplicates,
every registered client's channel is open and never closed, and no
channel has ever been closed twice. -/
def HubWellFormed (s : HubState) : Prop :=
  s.clients.Nodup ∧
  (∀ c, c ∈ s.clients → ChanUntouched s c) ∧
  (∀ c, (s.chans c).closeCount ≤ 1)

/-- Modelled from the spec's description of the handshake ("read exactly one
line as the display name", "trimmed of trailing newline/whitespace") and the
code comment in server.go ("Trim whitespace and newline characters from the
nickname"): the first line with all trailing whitespace characters removed.
Compared against `handshakeNickname`, which embeds what the code actually
does (drop exactly the final byte). -/
def specTrimmedNickname (input : List Char) : Option Msg :=
  match readLineSplit input with
  | none => none
  | some (line, _) =>
      some ((line.reverse.dropWhile fun ch =>
        ch == '\n' || ch == '\r' || ch == ' ' || ch == '\t').reverse)

/-- A concrete hub state with one registered client 0 (used to instantiate
theorems at concrete inputs). -/
def hubEx : HubState :=
  { clients := [0], chans := fun _ => ClientState.init [] }

/-- A concrete hub state with two registered clients 0 and 1, both with
empty outbound buffers. -/
def pairState : HubState :=
  { clients := [0, 1], chans := fun _ => ClientState.init [] }

/-- A channel state whose outbound buffer is completely full. -/
def fullChanState : ClientState :=
  { nickname := [], queue := List.replicate sendCapacity ['x'],
    closed := false, closeCount := 0 }

/-- A concrete hub state where client 1's outbound buffer is full and
client 0's is empty. -/
def mixedState : HubState :=
  { clients := [0, 1], chans := fun d => if d = 1 then fullChanState else ClientState.init [] }

/-! ### Basic lemmas about the embedded operations -/

lemma updateChan_self (f : Nat → ClientState) (c : Nat) (v : ClientState) :
    updateChan f c v c = v := by
  simp [updateChan]

lemma updateChan_ne (f : Nat → ClientState) (c d : Nat) (v : ClientState) (h : d ≠ c) :
    updateChan f c v d = f d := by
  simp [updateChan, h]

lemma hubStep_register_mem (s : HubState) (c : Nat) (h : c ∈ s.clients) :
    hubStep s (.register c) = s := by
  simp [hubStep, h]

lemma hubStep_register_not_mem (s : HubState) (c : Nat) (h : c ∉ s.clients) :
    hubStep s (.register c) = { s with clients := c :: s.clients } := by
  simp [hubStep, h]

lemma hubStep_unregister_not_mem (s : HubState) (c : Nat) (h : c ∉ s.clients) :
    hubStep s (.unregister c) = s := by
  simp [hubStep, h]

lemma hubStep_unregister_mem (s : HubState) (c : Nat) (h : c ∈ s.clients) :
    hubStep s (.unregister c) =
      { clients := s.clients.erase c,
        chans := updateChan s.chans c (closeChan (s.chans c)) } := by
  simp [hubStep, h]

lemma hubStep_broadcast (s : HubState) (m : Msg) :
    hubStep s (.broadcast m) = s.clients.foldl (sendOrEvict m) s := rfl

lemma sendOrEvict_chans_ne (m : Msg) (s : HubState) (c d : Nat) (h : d ≠ c) :
    (sendOrEvict m s c).chans d = s.chans d := by
  by_cases hr : (s.chans c).queue.length < sendCapacity <;>
    simp [sendOrEvict, hr, updateChan, h]

lemma sendOrEvict_chans_self (m : Msg) (s : HubState) (c : Nat) :
    (sendOrEvict m s c).chans c =
      if (s.chans c).queue.length < sendCapacity
      then { s.chans c with queue := (s.chans c).queue ++ [m] }
      else closeChan (s.chans c) := by
  by_cases hr : (s.chans c).queue.length < sendCapacity <;>
    simp [sendOrEvict, hr, updateChan]

lemma sendOrEvict_clients_room (m : Msg) (s : HubState) (c : Nat)
    (hr : (s.chans c).queue.length < sendCapacity) :
    (sendOrEvict m s c).clients = s.clients := by
  simp [sendOrEvict, hr]

lemma sendOrEvict_clients_full (m : Msg) (s : HubState) (c : Nat)
    (hr : ¬ (s.chans c).queue.length < sendCapacity) :
    (sendOrEvict m s c).clients = s.clients.erase c := by
  simp [sendOrEvict, hr]

lemma sendOrEvict_clients_subset (m : Msg) (s : HubState) (c : Nat) :
    (sendOrEvict m s c).clients ⊆ s.clients := by
  by_cases hr : (s.chans c).queue.length < sendCapacity
  · simp [sendOrEvict_clients_room m s c hr]
  · rw [sendOrEvict_clients_full m s c hr]
    exact List.erase_subset c s.clients

lemma sendOrEvict_mem_clients (m : Msg) (s : HubState) (c d : Nat)
    (hmem : d ∈ s.clients) (hne : d ≠ c) :
    d ∈ (sendOrEvict m s c).clients := by
  by_cases hr : (s.chans c).queue.length < sendCapacity
  · rw [sendOrEvict_clients_room m s c hr]; exact hmem
  · rw [sendOrEvict_clients_full m s c hr]
    exact (List.mem_erase_of_ne hne).mpr hmem

lemma sendOrEvict_clients_nodup (m : Msg) (s : HubState) (c : Nat)
    (h : s.clients.Nodup) : (sendOrEvict m s c).clients.Nodup := by
  by_cases hr : (s.chans c).queue.length < sendCapacity
  · rw [sendOrEvict_clients_room m s c hr]; exact h
  · rw [sendOrEvict_clients_full m s c hr]; exact h.erase c

/-! ### Lemmas about the broadcast fan-out fold -/

lemma foldl_sendOrEvict_chans_not_mem (m : Msg) (l : List Nat) (c : Nat) :
    ∀ s : HubState, c ∉ l → (l.foldl (sendOrEvict m) s).chans c = s.chans c := by
  induction l with
  | nil => intro s _; rfl
  | cons a t ih =>
      intro s hc
      have hca : c ≠ a := by rintro rfl; exact hc (List.mem_cons_self ..)
      have hct : c ∉ t := fun h => hc (List.mem_cons_of_mem _ h)
      rw [List.foldl_cons, ih _ hct, sendOrEvict_chans_ne m s a c hca]

lemma foldl_sendOrEvict_not_mem_clients (m : Msg) (l : List Nat) (c : Nat) :
    ∀ s : HubState, c ∉ s.clients → c ∉ (l.foldl (sendOrEvict m) s).clients := by
  induction l with
  | nil => exact fun _ h => h
  | cons a t ih =>
      intro s h
      rw [List.foldl_cons]
      exact ih _ fun hmem => h (sendOrEvict_clients_subset m s a hmem)

lemma foldl_sendOrEvict_mem_clients_not_mem (m : Msg) (l : List Nat) (c : Nat) :
    ∀ s : HubState, c ∉ l → c ∈ s.clients → c ∈ (l.foldl (sendOrEvict m) s).clients := by
  induction l with
  | nil => exact fun _ _ h => h
  | cons a t ih =>
      intro s hc h
      have hca : c ≠ a := by rintro rfl; exact hc (List.mem_cons_self ..)
      have hct : c ∉ t := fun hm => hc (List.mem_cons_of_mem _ hm)
      rw [List.foldl_cons]
      exact ih _ hct (sendOrEvict_mem_clients m s a c h hca)

lemma foldl_sendOrEvict_clients_subset (m : Msg) (l : List Nat) :
    ∀ s : HubState, (l.foldl (sendOrEvict m) s).clients ⊆ s.clients := by
  induction l with
  | nil => exact fun _ => List.Subset.refl _
  | cons a t ih =>
      intro s
      rw [List.foldl_cons]
      exact (ih _).trans (sendOrEvict_clients_subset m s a)

lemma foldl_sendOrEvict_clients_nodup (m : Msg) (l : List Nat) :
    ∀ s : HubState, s.clients.Nodup → (l.foldl (sendOrEvict m) s).clients.Nodup := by
  induction l with
  | nil => exact fun _ h => h
  | cons a t ih =>
      intro s h
      rw [List.foldl_cons]
      exact ih _ (sendOrEvict_clients_nodup m s a h)

lemma foldl_sendOrEvict_chans_mem (m : Msg) (l : List Nat) (c : Nat) :
    ∀ s : HubState, l.Nodup → c ∈ l →
      (l.foldl (sendOrEvict m) s).chans c =
        if (s.chans c).queue.length < sendCapacity
        then { s.chans c with queue := (s.chans c).queue ++ [m] }
        else closeChan (s.chans c) := by
  induction l with
  | nil => intro s _ hc; cases hc
  | cons a t ih =>
      intro s hnd hc
      rw [List.foldl_cons]
      by_cases hca : c = a
      · subst hca
        have hct : c ∉ t := (List.nodup_cons.mp hnd).1
        rw [foldl_sendOrEvict_chans_not_mem m t c _ hct, sendOrEvict_chans_self]
      · have hct : c ∈ t := by
          rcases List.mem_cons.mp hc with h | h
          · exact absurd h hca
          · exact h
        rw [ih _ (List.nodup_cons.mp hnd).2 hct, sendOrEvict_chans_ne m s a c hca]

lemma foldl_sendOrEvict_mem_clients_iff (m : Msg) (l : List Nat) (c : Nat) :
    ∀ s : HubState, l.Nodup → s.clients.Nodup → c ∈ l → c ∈ s.clients →
      (c ∈ (l.foldl (sendOrEvict m) s).clients ↔
        (s.chans c).queue.length < sendCapacity) := by
  induction l with
  | nil => intro s _ _ hc _; cases hc
  | cons a t ih =>
      intro s hnd hsnd hc hcs
      rw [List.foldl_cons]
      by_cases hca : c = a
      · subst hca
        have hct : c ∉ t := (List.nodup_cons.mp hnd).1
        by_cases hroom : (s.chans c).queue.length < sendCapacity
        · simp only [hroom, iff_true]
          apply foldl_sendOrEvict_mem_clients_not_mem m t c _ hct
          rw [sendOrEvict_clients_room m s c hroom]
          exact hcs
        · simp only [hroom, iff_false]
          apply foldl_sendOrEvict_not_mem_clients m t c
          rw [sendOrEvict_clients_full m s c hroom]
          exact hsnd.not_mem_erase
      · have hct : c ∈ t := by
          rcases List.mem_cons.mp hc with h | h
          · exact absurd h hca
          · exact h
        have h1 : (sendOrEvict m s a).chans c = s.chans c :=
          sendOrEvict_chans_ne m s a c hca
        rw [← h1]
        exact ih _ (List.nodup_cons.mp hnd).2 (sendOrEvict_clients_nodup m s a hsnd) hct
          (sendOrEvict_mem_clients m s a c hcs hca)

lemma foldl_sendOrEvict_clients_eq (m : Msg) (l : List Nat) :
    ∀ s : HubState, l.Nodup →
      (∀ c ∈ l, (s.chans c).queue.length < sendCapacity) →
      (l.foldl (sendOrEvict m) s).clients = s.clients := by
  induction l with
  | nil => intro s _ _; rfl
  | cons a t ih =>
      intro s hnd hroom
      rw [List.foldl_cons]
      have ha : (s.chans a).queue.length < sendCapacity := hroom a (List.mem_cons_self ..)
      have hroomt : ∀ c ∈ t, ((sendOrEvict m s a).chans c).queue.length < sendCapacity := by
        intro c hct
        have hca : c ≠ a := by rintro rfl; exact (List.nodup_cons.mp hnd).1 hct
        rw [sendOrEvict_chans_ne m s a c hca]
        exact hroom c (List.mem_cons_of_mem _ hct)
      rw [ih _ (List.nodup_cons.mp hnd).2 hroomt, sendOrEvict_clients_room m s a ha]

/-! ### Lemmas about line reading and the inbound pump -/

lemma readLineSplit_eq_some (input : List Char) :
    ∀ line rest, readLineSplit input = some (line, rest) →
      ∃ pre, line = pre ++ ['\n'] ∧ '\n' ∉ pre ∧ input = pre ++ '\n' :: rest := by
  induction input with
  | nil => intro l r h; simp [readLineSplit] at h
  | cons c tl ih =>
      intro l r h
      by_cases hc : c = '\n'
      · subst hc
        simp [readLineSplit] at h
        obtain ⟨h1, h2⟩ := h
        exact ⟨[], by simp [← h1], by simp, by simp [h2]⟩
      · simp only [readLineSplit, if_neg hc] at h
        cases hrl : readLineSplit tl with
        | none => rw [hrl] at h; cases h
        | some pr =>
            obtain ⟨l', r'⟩ := pr
            rw [hrl] at h
            simp only [Option.some.injEq, Prod.mk.injEq] at h
            obtain ⟨hl, hr⟩ := h
            obtain ⟨pre, hpre1, hpre2, hpre3⟩ := ih l' r' hrl
            refine ⟨c :: pre, ?_, ?_, ?_⟩
            · rw [← hl, hpre1]; simp
            · intro hmem
              rcases List.mem_cons.mp hmem with hmm | hmm
              · exact hc hmm.symm
              · exact hpre2 hmm
            · rw [← hr, hpre3]; simp

lemma readPumpGo_line (nickname : Msg) (payload : List Char) :
    ∀ (acc : Msg) (rest : List Char), '\n' ∉ payload →
      readPumpGo nickname acc (payload ++ '\n' :: rest) =
        formatMessage nickname (acc ++ payload ++ ['\n']) :: readPumpGo nickname [] rest := by
  induction payload with
  | nil =>
      intro acc rest _
      simp [readPumpGo]
  | cons p ps ih =>
      intro acc rest hnl
      have hp : ¬ p = '\n' := by
        intro h; exact hnl (h ▸ List.mem_cons_self ..)
      simp only [List.cons_append, readPumpGo, if_neg hp, List.append_eq]
      rw [ih (acc ++ [p]) rest fun h => hnl (List.mem_cons_of_mem _ h)]
      simp

lemma readPumpMessages_line (nickname : Msg) (payload rest : List Char)
    (h : '\n' ∉ payload) :
    readPumpMessages nickname (payload ++ '\n' :: rest) =
      formatMessage nickname (payload ++ ['\n']) :: readPumpMessages nickname rest := by
  unfold readPumpMessages
  rw [readPumpGo_line nickname payload [] rest h]
  simp

/-! ### Runs of register events -/

lemma hubRun_registers_chans (ids : List Nat) :
    ∀ s : HubState, (hubRun s (ids.map HubEvent.register)).chans = s.chans := by
  induction ids with
  | nil => intro s; rfl
  | cons a t ih =>
      intro s
      show (hubRun (hubStep s (.register a)) (t.map HubEvent.register)).chans = s.chans
      rw [ih]
      by_cases h : a ∈ s.clients
      · rw [hubStep_register_mem s a h]
      · rw [hubStep_register_not_mem s a h]

lemma hubRun_registers_nodup (ids : List Nat) :
    ∀ s : HubState, s.clients.Nodup → (hubRun s (ids.map HubEvent.register)).clients.Nodup := by
  induction ids with
  | nil => exact fun _ h => h
  | cons a t ih =>
      intro s h
      show (hubRun (hubStep s (.register a)) (t.map HubEvent.register)).clients.Nodup
      apply ih
      by_cases hm : a ∈ s.clients
      · rw [hubStep_register_mem s a hm]; exact h
      · rw [hubStep_register_not_mem s a hm]
        exact List.nodup_cons.mpr ⟨hm, h⟩

/-! ### Preservation of the Hub invariant -/

lemma hubStep_preserves_wf_register (s : HubState) (c : Nat)
    (h : HubWellFormed s) (hc : c ∉ s.clients) (hu : ChanUntouched s c) :
    HubWellFormed (hubStep s (.register c)) := by
  rw [hubStep_register_not_mem s c hc]
  obtain ⟨hnd, hmem, hcnt⟩ := h
  refine ⟨List.nodup_cons.mpr ⟨hc, hnd⟩, ?_, hcnt⟩
  intro d hd
  rcases List.mem_cons.mp hd with rfl | hd2
  · exact hu
  · exact hmem d hd2

lemma hubStep_preserves_wf_unregister (s : HubState) (c : Nat)
    (h : HubWellFormed s) : HubWellFormed (hubStep s (.unregister c)) := by
  by_cases hm : c ∈ s.clients
  · rw [hubStep_unregister_mem s c hm]
    obtain ⟨hnd, hmem, hcnt⟩ := h
    refine ⟨hnd.erase c, ?_, ?_⟩
    · intro d hd
      have hdmem : d ∈ s.clients := List.mem_of_mem_erase hd
      have hdc : d ≠ c := by rintro rfl; exact hnd.not_mem_erase hd
      have h2 := hmem d hdmem
      constructor
      · show (updateChan s.chans c (closeChan (s.chans c)) d).closed = false
        rw [updateChan_ne _ _ _ _ hdc]; exact h2.1
      · show (updateChan s.chans c (closeChan (s.chans c)) d).closeCount = 0
        rw [updateChan_ne _ _ _ _ hdc]; exact h2.2
    · intro d
      show (updateChan s.chans c (closeChan (s.chans c)) d).closeCount ≤ 1
      by_cases hdc : d = c
      · subst hdc
        rw [updateChan_self]
        simp [closeChan, (hmem d hm).2]
      · rw [updateChan_ne _ _ _ _ hdc]; exact hcnt d
  · rw [hubStep_unregister_not_mem s c hm]; exact h

lemma hubStep_preserves_wf_broadcast (s : HubState) (m : Msg)
    (h : HubWellFormed s) : HubWellFormed (hubStep s (.broadcast m)) := by
  obtain ⟨hnd, hmem, hcnt⟩ := h
  rw [hubStep_broadcast]
  refine ⟨foldl_sendOrEvict_clients_nodup m s.clients s hnd, ?_, ?_⟩
  · intro d hd
    have hdmem : d ∈ s.clients := foldl_sendOrEvict_clients_subset m s.clients s hd
    have hroom : (s.chans d).queue.length < sendCapacity :=
      (foldl_sendOrEvict_mem_clients_iff m s.clients d s hnd hnd hdmem hdmem).mp hd
    have hch := foldl_sendOrEvict_chans_mem m s.clients d s hnd hdmem
    rw [if_pos hroom] at hch
    exact ⟨by rw [hch]; exact (hmem d hdmem).1, by rw [hch]; exact (hmem d hdmem).2⟩
  · intro d
    by_cases hdl : d ∈ s.clients
    · have hch := foldl_sendOrEvict_chans_mem m s.clients d s hnd hdl
      by_cases hroom : (s.chans d).queue.length < sendCapacity
      · rw [if_pos hroom] at hch
        rw [hch]
        exact hcnt d
      · rw [if_neg hroom] at hch
        rw [hch]
        simp [closeChan, (hmem d hdl).2]
    · rw [foldl_sendOrEvict_chans_not_mem m s.clients d s hdl]
      exact hcnt d

lemma hubStep_preserves_fresh (s : HubState) (e : HubEvent) (c : Nat)
    (hc : c ∉ s.clients) (hu : ChanUntouched s c)
    (hne : ∀ d, e = .register d → c ≠ d) :
    c ∉ (hubStep s e).clients ∧ ChanUntouched (hubStep s e) c := by
  cases e with
  | register d =>
      have hcd : c ≠ d := hne d rfl
      by_cases hm : d ∈ s.clients
      · rw [hubStep_register_mem s d hm]; exact ⟨hc, hu⟩
      · rw [hubStep_register_not_mem s d hm]
        refine ⟨?_, hu⟩
        intro hmem
        rcases List.mem_cons.mp hmem with h | h
        · exact hcd h
        · exact hc h
  | unregister d =>
      by_cases hm : d ∈ s.clients
      · have hcd : c ≠ d := by rintro rfl; exact hc hm
        rw [hubStep_unregister_mem s d hm]
        refine ⟨?_, ?_, ?_⟩
        · intro hmem
          exact hc (List.mem_of_mem_erase hmem)
        · show (updateChan s.chans d (closeChan (s.chans d)) c).closed = false
          rw [updateChan_ne _ _ _ _ hcd]; exact hu.1
        · show (updateChan s.chans d (closeChan (s.chans d)) c).closeCount = 0
          rw [updateChan_ne _ _ _ _ hcd]; exact hu.2
      · rw [hubStep_unregister_not_mem s d hm]; exact ⟨hc, hu⟩
  | broadcast m =>
      rw [hubStep_broadcast]
      refine ⟨foldl_sendOrEvict_not_mem_clients m s.clients c s hc, ?_, ?_⟩
      · show ((s.clients.foldl (sendOrEvict m) s).chans c).closed = false
        rw [foldl_sendOrEvict_chans_not_mem m s.clients c s hc]; exact hu.1
      · show ((s.clients.foldl (sendOrEvict m) s).chans c).closeCount = 0
        rw [foldl_sendOrEvict_chans_not_mem m s.clients c s hc]; exact hu.2

lemma hubRun_wf_aux (es : List HubEvent) :
    ∀ s : HubState, HubWellFormed s → (registerIds es).Nodup →
      (∀ c ∈ registerIds es, c ∉ s.clients ∧ ChanUntouched s c) →
      HubWellFormed (hubRun s es) := by
  induction es with
  | nil => exact fun _ h _ _ => h
  | cons e t ih =>
      intro s hwf hnd hfresh
      show HubWellFormed (hubRun (hubStep s e) t)
      cases e with
      | register d =>
          have hids : registerIds (HubEvent.register d :: t) = d :: registerIds t := by
            simp [registerIds]
          rw [hids] at hnd hfresh
          have hd := hfresh d (List.mem_cons_self ..)
          apply ih
          · exact hubStep_preserves_wf_register s d hwf hd.1 hd.2
          · exact (List.nodup_cons.mp hnd).2
          · intro c hct
            have hcd : c ≠ d := by
              rintro rfl; exact (List.nodup_cons.mp hnd).1 hct
            have hcf := hfresh c (List.mem_cons_of_mem _ hct)
            exact hubStep_preserves_fresh s (.register d) c hcf.1 hcf.2
              fun d2 he => by injection he with h2; exact h2 ▸ hcd
      | unregister d =>
          have hids : registerIds (HubEvent.unregister d :: t) = registerIds t := by
            simp [registerIds]
          rw [hids] at hnd hfresh
          apply ih
          · exact hubStep_preserves_wf_unregister s d hwf
          · exact hnd
          · intro c hct
            have hcf := hfresh c hct
            exact hubStep_preserves_fresh s (.unregister d) c hcf.1 hcf.2
              fun d2 he => nomatch he
      | broadcast m =>
          have hids : registerIds (HubEvent.broadcast m :: t) = registerIds t := by
            simp [registerIds]
          rw [hids] at hnd hfresh
          apply ih
          · exact hubStep_preserves_wf_broadcast s m hwf
          · exact hnd
          · intro c hct
            have hcf := hfresh c hct
            exact hubStep_preserves_fresh s (.broadcast m) c hcf.1 hcf.2
              fun d2 he => nomatch he

/-! ### Broadcast delivery to a client with room, and handleConnection -/

lemma broadcast_keeps_fresh_member (s : HubState) (m : Msg) (c : Nat)
    (hnd : s.clients.Nodup) (hc : c ∈ s.clients)
    (hroom : (s.chans c).queue.length < sendCapacity) :
    c ∈ (hubStep s (.broadcast m)).clients ∧
    (hubStep s (.broadcast m)).chans c =
      { s.chans c with queue := (s.chans c).queue ++ [m] } := by
  rw [hubStep_broadcast]
  exact ⟨(foldl_sendOrEvict_mem_clients_iff m s.clients c s hnd hnd hc hc).mpr hroom,
    by rw [foldl_sendOrEvict_chans_mem m s.clients c s hnd hc, if_pos hroom]⟩

lemma handleConnection_registers (s : HubState) (newId : Nat) (nick : Msg)
    (input : List Char) (hhn : handshakeNickname input = some nick)
    (hnd : s.clients.Nodup) (hnotmem : newId ∉ s.clients) :
    ∃ s2, handleConnection s newId input = some s2 ∧ newId ∈ s2.clients ∧
      (s2.chans newId).nickname = nick := by
  have hreg :
      hubStep { s with chans := updateChan s.chans newId (ClientState.init nick) }
        (.register newId) =
      { clients := newId :: s.clients,
        chans := updateChan s.chans newId (ClientState.init nick) } :=
    hubStep_register_not_mem _ newId hnotmem
  have hfinal : handleConnection s newId input =
      some (hubStep { clients := newId :: s.clients,
                      chans := updateChan s.chans newId (ClientState.init nick) }
              (.broadcast (joinMessage nick))) := by
    unfold handleConnection
    rw [hhn, ← hreg]
  have hroom2 :
      (updateChan s.chans newId (ClientState.init nick) newId).queue.length < sendCapacity := by
    rw [updateChan_self]
    simp [ClientState.init, sendCapacity]
  obtain ⟨hm, hch⟩ := broadcast_keeps_fresh_member
    { clients := newId :: s.clients,
      chans := updateChan s.chans newId (ClientState.init nick) }
    (joinMessage nick) newId
    (List.nodup_cons.mpr ⟨hnotmem, hnd⟩) (List.mem_cons_self ..) hroom2
  refine ⟨_, hfinal, hm, ?_⟩
  rw [hch]
  show (updateChan s.chans newId (ClientState.init nick) newId).nickname = nick
  rw [updateChan_self]
  rfl

/-! ### The claims -/

/-- C1: on a broadcast, a registered client whose outbound buffer is full is
not blocked on: the non-blocking enqueue fails and the Hub immediately
removes the client from the registered set and closes its channel — after
this single broadcast the client is gone — while every other registered
client whose buffer has room gets exactly the message appended to its
buffer and stays registered. -/
theorem broadcast_evicts_slow_consumer (s : HubState) (m : Msg) (c : Nat)
    (hnd : s.clients.Nodup) (hc : c ∈ s.clients)
    (hfull : ¬ (s.chans c).queue.length < sendCapacity) :
    c ∉ (hubStep s (.broadcast m)).clients ∧
    ((hubStep s (.broadcast m)).chans c).closed = true ∧
    ∀ d, d ∈ s.clients → d ≠ c → (s.chans d).queue.length < sendCapacity →
      d ∈ (hubStep s (.broadcast m)).clients ∧
      ((hubStep s (.broadcast m)).chans d).queue = (s.chans d).queue ++ [m] := by
  rw [hubStep_broadcast]
  refine ⟨?_, ?_, ?_⟩
  · intro hmem
    exact hfull ((foldl_sendOrEvict_mem_clients_iff m s.clients c s hnd hnd hc hc).mp hmem)
  · rw [foldl_sendOrEvict_chans_mem m s.clients c s hnd hc, if_neg hfull]
    rfl
  · intro d hd hdc hroom
    constructor
    · exact (foldl_sendOrEvict_mem_clients_iff m s.clients d s hnd hnd hd hd).mpr hroom
    · rw [foldl_sendOrEvict_chans_mem m s.clients d s hnd hd, if_pos hroom]

/-- Witness for C1 at a concrete state: client 1's buffer is full, client
0's is empty; broadcasting evicts and closes 1 and delivers to 0. -/
theorem broadcast_evicts_slow_consumer_witness :
    (1 ∉ (hubStep mixedState (.broadcast ['h', 'i'])).clients ∧
     ((hubStep mixedState (.broadcast ['h', 'i'])).chans 1).closed = true) ∧
    (0 ∈ (hubStep mixedState (.broadcast ['h', 'i'])).clients ∧
     ((hubStep mixedState (.broadcast ['h', 'i'])).chans 0).queue =
       (mixedState.chans 0).queue ++ [['h', 'i']]) := by
  have h := broadcast_evicts_slow_consumer mixedState ['h', 'i'] 1
    (by decide) (by decide)
    (by rw [show (mixedState.chans 1).queue = List.replicate sendCapacity ['x'] from rfl,
          List.length_replicate]
        exact Nat.lt_irrefl sendCapacity)
  exact ⟨⟨h.1, h.2.1⟩, h.2.2 0 (by decide) (by decide) (by decide)⟩

/-- C2: after any sequence of register events processed from the initial
hub state, a single broadcast enqueues exactly one copy of the message onto
the outbound buffer of every client registered at the time of the broadcast
— there is no sender exclusion, the fan-out ranges over every registered
client — and the registered set is unchanged (no buffer is full, so no one
is evicted). -/
theorem broadcast_delivers_exactly_once (ids : List Nat) (m : Msg) :
    (hubRun hubInit (ids.map HubEvent.register ++ [HubEvent.broadcast m])).clients =
      (hubRun hubInit (ids.map HubEvent.register)).clients ∧
    ∀ c, c ∈ (hubRun hubInit (ids.map HubEvent.register)).clients →
      ((hubRun hubInit (ids.map HubEvent.register ++ [HubEvent.broadcast m])).chans c).queue
        = [m] := by
  have hchans := hubRun_registers_chans ids hubInit
  have hnd := hubRun_registers_nodup ids hubInit List.nodup_nil
  have hrun : hubRun hubInit (ids.map HubEvent.register ++ [HubEvent.broadcast m]) =
      hubStep (hubRun hubInit (ids.map HubEvent.register)) (.broadcast m) := by
    simp [hubRun, List.foldl_append]
  have hroom : ∀ c ∈ (hubRun hubInit (ids.map HubEvent.register)).clients,
      ((hubRun hubInit (ids.map HubEvent.register)).chans c).queue.length < sendCapacity := by
    intro c _
    rw [hchans]
    simp [hubInit, ClientState.init, sendCapacity]
  rw [hrun, hubStep_broadcast]
  constructor
  · exact foldl_sendOrEvict_clients_eq m _ _ hnd hroom
  · intro c hc
    rw [foldl_sendOrEvict_chans_mem m _ c _ hnd hc, if_pos (hroom c hc)]
    show ((hubRun hubInit (ids.map HubEvent.register)).chans c).queue ++ [m] = [m]
    rw [hchans]
    rfl

/-- Witness for C2: register clients 0 and 1, then broadcast; client 0's
buffer holds exactly one copy. -/
theorem broadcast_delivers_exactly_once_witness :
    0 ∈ (hubRun hubInit ([0, 1].map HubEvent.register)).clients ∧
    ((hubRun hubInit
        ([0, 1].map HubEvent.register ++ [HubEvent.broadcast ['h', 'i']])).chans 0).queue
      = [['h', 'i']] :=
  ⟨by decide, (broadcast_delivers_exactly_once [0, 1] ['h', 'i']).2 0 (by decide)⟩

/-- C3: an unregister event for a client that is not in the registered set
leaves the hub state entirely unchanged (no error, no close), and
unregistering the same client twice is a safe no-op: the second unregister
leaves the state exactly as after the first, so in particular the queue is
not closed a second time. -/
theorem unregister_idempotent (s : HubState) (c : Nat) :
    (c ∉ s.clients → hubStep s (.unregister c) = s) ∧
    (s.clients.Nodup →
      hubStep (hubStep s (.unregister c)) (.unregister c) = hubStep s (.unregister c)) := by
  constructor
  · exact fun h => hubStep_unregister_not_mem s c h
  · intro hnd
    by_cases h : c ∈ s.clients
    · rw [hubStep_unregister_mem s c h]
      exact hubStep_unregister_not_mem _ c hnd.not_mem_erase
    · rw [hubStep_unregister_not_mem s c h, hubStep_unregister_not_mem s c h]

/-- Witness for C3: unregistering absent client 2 fixes the state, and
double-unregistering client 0 equals single unregistration. -/
theorem unregister_idempotent_witness :
    hubStep hubEx (.unregister 2) = hubEx ∧
    hubStep (hubStep hubEx (.unregister 0)) (.unregister 0) =
      hubStep hubEx (.unregister 0) :=
  ⟨(unregister_idempotent hubEx 2).1 (by decide),
   (unregister_idempotent hubEx 0).2 (by decide)⟩

/-- C4: over every sequence of hub events in which each client object is
registered at most once (as in the program, where every register event
carries a freshly constructed client), the hub state stays well-formed:
the registered set has no duplicates, every registered client's channel is
open and has never been closed — both close sites delete the client from
the set in the same step — and no client's channel is ever closed more than
once. -/
theorem hub_closes_each_chan_at_most_once (es : List HubEvent)
    (h : (registerIds es).Nodup) : HubWellFormed (hubRun hubInit es) := by
  apply hubRun_wf_aux es hubInit ?_ h ?_
  · exact ⟨List.nodup_nil, fun c hc => absurd hc (List.not_mem_nil c),
      fun _ => Nat.zero_le 1⟩
  · intro c _
    exact ⟨List.not_mem_nil c, rfl, rfl⟩

/-- Witness for C4: a concrete trace with registrations, a broadcast, and a
double unregistration keeps the hub well-formed. -/
theorem hub_closes_each_chan_at_most_once_witness :
    HubWellFormed (hubRun hubInit
      [HubEvent.register 0, HubEvent.register 1, HubEvent.broadcast ['h'],
       HubEvent.unregister 0, HubEvent.unregister 0]) :=
  hub_closes_each_chan_at_most_once _ (by decide)

/-- C5 counterexample: in a hub with clients 0 and 1 registered, processing
the unregister event produced by client 1's disconnection enqueues nothing
onto client 0's outbound buffer — it stays empty, so no "has left" notice
(nor any other message) is delivered to the remaining client, contrary to
the claim. -/
theorem no_leave_notice_on_disconnect :
    ((hubStep pairState (.unregister 1)).chans 0).queue = [] ∧
    1 ∉ (hubStep pairState (.unregister 1)).clients ∧
    0 ∈ (hubStep pairState (.unregister 1)).clients := by
  decide

/-- C5 (amended): when a registered client disconnects, the Hub removes it
silently: no leave notice is broadcast (every other client's channel state
is completely unchanged by the unregistration), and subsequent broadcasts
no longer attempt delivery to the departed client — its channel is not
touched again and it stays out of the registered set. -/
theorem disconnect_silent_and_no_further_delivery (s : HubState) (c : Nat) (m : Msg)
    (hnd : s.clients.Nodup) (hc : c ∈ s.clients) :
    (∀ d, d ≠ c → (hubStep s (.unregister c)).chans d = s.chans d) ∧
    c ∉ (hubStep s (.unregister c)).clients ∧
    (hubStep (hubStep s (.unregister c)) (.broadcast m)).chans c =
      (hubStep s (.unregister c)).chans c ∧
    c ∉ (hubStep (hubStep s (.unregister c)) (.broadcast m)).clients := by
  have h1 := hubStep_unregister_mem s c hc
  have hout : c ∉ (hubStep s (.unregister c)).clients := by
    rw [h1]; exact hnd.not_mem_erase
  refine ⟨?_, hout, ?_, ?_⟩
  · intro d hdc
    rw [h1]
    exact updateChan_ne _ _ _ _ hdc
  · rw [hubStep_broadcast]
    exact foldl_sendOrEvict_chans_not_mem m _ c _ hout
  · rw [hubStep_broadcast]
    exact foldl_sendOrEvict_not_mem_clients m _ c _ hout

/-- Witness for C5 (amended) at the two-client state: unregistering client
1 leaves client 0's channel untouched, and a following broadcast does not
touch client 1. -/
theorem disconnect_silent_witness :
    (hubStep pairState (.unregister 1)).chans 0 = pairState.chans 0 ∧
    1 ∉ (hubStep pairState (.unregister 1)).clients ∧
    (hubStep (hubStep pairState (.unregister 1)) (.broadcast ['h'])).chans 1 =
      (hubStep pairState (.unregister 1)).chans 1 ∧
    1 ∉ (hubStep (hubStep pairState (.unregister 1)) (.broadcast ['h'])).clients := by
  have h := disconnect_silent_and_no_further_delivery pairState 1 ['h']
    (by decide) (by decide)
  exact ⟨h.1 0 (by decide), h.2.1, h.2.2.1, h.2.2.2⟩

/-- C6: the inbound pump does not enforce `maxMessageSize`: a line whose
payload is longer than 1024 bytes is still read, formatted with the
nickname, and forwarded to the broadcast channel unmodified — no rejection,
no truncation: the forwarded message contains the entire payload. -/
theorem max_message_size_not_enforced (nickname payload rest : List Char)
    (hnl : '\n' ∉ payload) (_hlong : maxMessageSize < payload.length) :
    readPumpMessages nickname (payload ++ '\n' :: rest) =
      formatMessage nickname (payload ++ ['\n']) :: readPumpMessages nickname rest ∧
    formatMessage nickname (payload ++ ['\n']) =
      ['['] ++ nickname ++ [']', ':', ' '] ++ payload ++ ['\n'] := by
  constructor
  · exact readPumpMessages_line nickname payload rest hnl
  · simp [formatMessage]

/-- Witness for C6: a 1025-byte payload (above the 1024 maximum) is
forwarded whole. -/
theorem max_message_size_not_enforced_witness :
    maxMessageSize < (List.replicate 1025 'a').length ∧
    readPumpMessages ['n'] (List.replicate 1025 'a' ++ '\n' :: []) =
      formatMessage ['n'] (List.replicate 1025 'a' ++ ['\n']) ::
        readPumpMessages ['n'] [] :=
  ⟨by rw [List.length_replicate]; decide,
   (max_message_size_not_enforced ['n'] (List.replicate 1025 'a') []
     (fun hmem => absurd (List.eq_of_mem_replicate hmem) (by decide))
     (by rw [List.length_replicate]; decide)).1⟩

/-- C7 (code-bug exhibit): the code drops exactly the final newline byte of
the nickname line (`nickname[:len(nickname)-1]`), so a nickname line with
trailing whitespace before the newline keeps that whitespace — here the
line "Ann \n" yields the name "Ann " — while the trimming described by the
spec and by the code's own comment would yield "Ann". -/
theorem nickname_trailing_whitespace_kept :
    handshakeNickname ("Ann \n").toList = some ("Ann ").toList ∧
    specTrimmedNickname ("Ann \n").toList = some ("Ann").toList ∧
    ("Ann ").toList ≠ ("Ann").toList := by
  decide

/-- C8: every chat message the inbound pump forwards for a payload line is
the single line `[<nickname>]: <payload>\n` — the payload wrapped with the
sender's nickname in brackets, a colon and a space — terminated by exactly
one line break (one newline in the whole message, and it is the last
character). -/
theorem message_format_exact (nickname payload rest : List Char)
    (hn : '\n' ∉ nickname) (hp : '\n' ∉ payload) :
    readPumpMessages nickname (payload ++ '\n' :: rest) =
      (['['] ++ nickname ++ [']', ':', ' '] ++ payload ++ ['\n']) ::
        readPumpMessages nickname rest ∧
    (['['] ++ nickname ++ [']', ':', ' '] ++ payload ++ ['\n']).count '\n' = 1 ∧
    (['['] ++ nickname ++ [']', ':', ' '] ++ payload ++ ['\n']).getLast? = some '\n' := by
  refine ⟨?_, ?_, ?_⟩
  · rw [readPumpMessages_line nickname payload rest hp]
    simp [formatMessage]
  · simp [List.count_append, List.count_eq_zero.mpr hn, List.count_eq_zero.mpr hp]
  · rw [show ['['] ++ nickname ++ [']', ':', ' '] ++ payload ++ ['\n'] =
        (['['] ++ nickname ++ [']', ':', ' '] ++ payload) ++ ['\n'] by simp]
    exact List.getLast?_concat _

/-- Witness for C8 with nickname "Ann" and payload "hi". -/
theorem message_format_exact_witness :
    readPumpMessages ['A', 'n', 'n'] (['h', 'i'] ++ '\n' :: []) =
      (['['] ++ ['A', 'n', 'n'] ++ [']', ':', ' '] ++ ['h', 'i'] ++ ['\n']) ::
        readPumpMessages ['A', 'n', 'n'] [] ∧
    (['['] ++ ['A', 'n', 'n'] ++ [']', ':', ' '] ++ ['h', 'i'] ++ ['\n']).count '\n' = 1 := by
  have h := message_format_exact ['A', 'n', 'n'] ['h', 'i'] [] (by decide) (by decide)
  exact ⟨h.1, h.2.1⟩

/-- C9: the constants match the spec's defaults: outbound queue capacity
256 messages, idle-read deadline 60 seconds, keepalive period exactly 90%
of the idle-read deadline (54 seconds), write deadline 10 seconds. -/
theorem constants_match_spec :
    sendCapacity = 256 ∧ pongWait = 60 * second ∧
    pingPeriod = 54 * second ∧ pingPeriod * 10 = pongWait * 9 ∧
    writeWait = 10 * second := by
  refine ⟨rfl, rfl, by decide, by decide, rfl⟩

/-- C10: whenever the nickname read succeeds, the returned line ends with
the newline delimiter and has length at least 1, so dropping its last byte
is in bounds and removes exactly the newline; the handshake then registers
the client under that name — in particular a bare newline yields the empty
display name, which is accepted and registered. -/
theorem handshake_slice_safe (input : List Char) (line : Msg) (rest : List Char)
    (h : readLineSplit input = some (line, rest)) :
    1 ≤ line.length ∧ line = line.dropLast ++ ['\n'] ∧
    handshakeNickname input = some line.dropLast ∧
    ∀ (s : HubState) (newId : Nat), s.clients.Nodup → newId ∉ s.clients →
      ∃ s2, handleConnection s newId input = some s2 ∧ newId ∈ s2.clients ∧
        (s2.chans newId).nickname = line.dropLast := by
  obtain ⟨pre, hline, _hpre, _hinput⟩ := readLineSplit_eq_some input line rest h
  have hdrop : line.dropLast = pre := by rw [hline]; exact List.dropLast_concat
  have hhn : handshakeNickname input = some line.dropLast := by
    unfold handshakeNickname; rw [h]
  refine ⟨?_, ?_, hhn, ?_⟩
  · rw [hline]; simp
  · rw [hdrop]; exact hline
  · intro s newId hnd hnm
    exact handleConnection_registers s newId line.dropLast input hhn hnd hnm

/-- Witness for C10: a client that sends only a bare newline gets the empty
display name and is still registered. -/
theorem handshake_slice_safe_witness :
    readLineSplit ['\n'] = some (['\n'], []) ∧
    handshakeNickname ['\n'] = some [] ∧
    ∃ s2, handleConnection hubInit 0 ['\n'] = some s2 ∧ 0 ∈ s2.clients ∧
      (s2.chans 0).nickname = [] := by
  have h := handshake_slice_safe ['\n'] ['\n'] [] (by decide)
  exact ⟨by decide, h.2.2.1, h.2.2.2 hubInit 0 List.nodup_nil (List.not_mem_nil 0)⟩

end GoChat
